import Mathlib

/-!
Verification of the `@bentopdf/pymupdf-wasm` wrapper layer.

This development shallowly embeds the original logic of the TypeScript
wrapper (`src/document.ts`, `src/pymupdf.ts`): the optional-content-group
(OCG) ordering-array reader (`getLayerConfig`), the ordering-array text
editor (`modify_pdf_order` inside `addOCGWithParent`), bulk page deletion
(`deletePages`), the closed-handle guard (`ensureOpen` / `close`), page
index validation (`getPage` and friends), the compression result metrics
(`compressPdf`), and range clamping in `split`.

Text is modelled as `List Char`; PDF cross-reference numbers as `Nat`;
JavaScript numbers used as page indices as `Int`; JavaScript float
arithmetic as exact rationals.
-/

namespace PdfWasm

/-! ## Character and string helpers (Python `str` semantics) -/

/-- Python `str.isspace` for the characters that can occur in ordering
arrays (ASCII whitespace). -/
def isSpaceChar (c : Char) : Bool :=
  c = ' ' || c = '\t' || c = '\n' || c = '\r' || c = '\x0b' || c = '\x0c'

/-- Python `str.strip`. -/
def stripChars (s : List Char) : List Char :=
  ((s.dropWhile isSpaceChar).reverse.dropWhile isSpaceChar).reverse

/-- Digit-list to number, for `int(match.group(1))`. -/
def digitsVal (ds : List Char) : Nat :=
  ds.foldl (fun a c => a * 10 + (c.toNat - 48)) 0

/-- Python `re.match(r'(\d+)\s+0\s+R', s)`: on success returns the
reference number and the total length of the match. -/
def refMatch (s : List Char) : Option (Nat × Nat) :=
  let ds := s.takeWhile Char.isDigit
  if ds.isEmpty then none else
  let r1 := s.drop ds.length
  let ws1 := r1.takeWhile isSpaceChar
  if ws1.isEmpty then none else
  match r1.drop ws1.length with
  | '0' :: r3 =>
    let ws2 := r3.takeWhile isSpaceChar
    if ws2.isEmpty then none else
    match r3.drop ws2.length with
    | 'R' :: _ => some (digitsVal ds, ds.length + ws1.length + 1 + ws2.length + 1)
    | _ => none
  | _ => none

/-- First index at which `pat` occurs as a contiguous substring of `s`
(Python `str.find`, with `none` for `-1`). -/
def findSub (s pat : List Char) : Option Nat :=
  match s with
  | [] => if pat.isPrefixOf ([] : List Char) then some 0 else none
  | c :: rest =>
    if pat.isPrefixOf (c :: rest) then some 0
    else (findSub rest pat).map (· + 1)

/-- The textual token `"<xref> 0 R"` built by the f-strings
`f"{parentXref} 0 R"` and `f"{child_xref} 0 R"`. -/
def refToken (x : Nat) : List Char := (Nat.repr x).data ++ [' ', '0', ' ', 'R']

/-! ## Read path: `getLayerConfig`'s `parse_order_array` -/

/-- One assignment performed by `parse_order_array`: layer `num` receives
nesting depth `depth` and parent reference `parentXref`; its display order
is the position of the event in the event list (the Python code uses a
mutable counter incremented exactly when such an assignment happens). -/
structure OrderEvent where
  num : Nat
  depth : Nat
  parentXref : Nat
deriving DecidableEq, Repr

/-- Lookup in the `xref_to_num` dictionary. -/
def lookupNum (xmap : List (Nat × Nat)) (x : Nat) : Option Nat :=
  (xmap.find? (fun p => p.1 = x)).map (·.2)

/-- Length of the scan performed by the inner bracket-matching loop of
`parse_order_array`: number of characters consumed until (and including)
the bracket closing a group opened just before `s`, starting at bracket
depth `d`. -/
def nestedLen : List Char → Nat → Nat
  | [], _ => 0
  | c :: cs, d =>
    if c = '[' then 1 + nestedLen cs (d + 1)
    else if c = ']' then (if d = 1 then 1 else 1 + nestedLen cs (d - 1))
    else 1 + nestedLen cs d

/-- The body of `parse_order_array(order_val, depth, parent_xref)`.
`fuel` bounds the recursion (the Python original recurses on a strictly
shorter slice, so `length + 1` fuel always suffices); `last` is the
`last_xref` variable. Returns the assignment events in execution order. -/
def parseLoop (xmap : List (Nat × Nat)) :
    Nat → List Char → Nat → Nat → Nat → List OrderEvent
  | 0, _, _, _, _ => []
  | _ + 1, [], _, _, _ => []
  | fuel + 1, c :: cs, depth, par, last =>
    if c = '[' then
      let n := nestedLen cs 1
      let content := cs.take (n - 1)
      let rest := cs.drop n
      parseLoop xmap fuel content (depth + 1) last 0 ++
        parseLoop xmap fuel rest depth par last
    else if c = ']' then
      parseLoop xmap fuel cs depth par last
    else if c.isDigit then
      match refMatch (c :: cs) with
      | some (x, len) =>
        (match lookupNum xmap x with
         | some num => [⟨num, depth, par⟩]
         | none => []) ++ parseLoop xmap fuel ((c :: cs).drop len) depth par x
      | none => parseLoop xmap fuel cs depth par last
    else
      parseLoop xmap fuel cs depth par last

/-- Events produced from a raw Order value: strip, remove one pair of
outer brackets when present, then run `parse_order_array(inner, 0, 0)`. -/
def orderEvents (xmap : List (Nat × Nat)) (orderStr : List Char) : List OrderEvent :=
  let t := stripChars orderStr
  let inner :=
    if t.head? = some '[' && t.getLast? = some ']' then (t.drop 1).dropLast else t
  parseLoop xmap (inner.length + 1) inner 0 0 0

/-! ## Read path: layer map assembly and sort -/

/-- One entry of `layer_ui_configs()` as consumed by `getLayerConfig`. -/
structure LayerUI where
  number : Nat
  text : String
  isOn : Bool
  locked : Bool
deriving DecidableEq, Repr

/-- One element of the JSON array returned by `getLayerConfig`. -/
structure OCGInfo where
  number : Nat
  text : String
  isOn : Bool
  locked : Bool
  depth : Nat
  xref : Nat
  parentXref : Nat
  displayOrder : Nat
deriving DecidableEq, Repr

/-- Initial `layer_map` entry: depth, xref, parentXref, displayOrder all 0. -/
def initLayer (l : LayerUI) : OCGInfo :=
  ⟨l.number, l.text, l.isOn, l.locked, 0, 0, 0, 0⟩

/-- `layer_map[num]['xref'] = xref` for the layer matched by name. -/
def setXref (m : List OCGInfo) (x num : Nat) : List OCGInfo :=
  m.map fun g => if g.number = num then { g with xref := x } else g

/-- The `layer_map` after the name-matching loop: defaults from
`layer_ui_configs`, then the xref assignments recorded in `xmap`. -/
def initMap (layers : List LayerUI) (xmap : List (Nat × Nat)) : List OCGInfo :=
  xmap.foldl (fun m p => setXref m p.1 p.2) (layers.map initLayer)

/-- One assignment of depth, parentXref and displayOrder to a layer. -/
def applyEvent (m : List OCGInfo) (e : OrderEvent) (ord : Nat) : List OCGInfo :=
  m.map fun g =>
    if g.number = e.num then
      { g with depth := e.depth, parentXref := e.parentXref, displayOrder := ord }
    else g

/-- Apply the events in order, numbering them from `k` (the display-order
counter). -/
def applyEventsFrom (m : List OCGInfo) : List OrderEvent → Nat → List OCGInfo
  | [], _ => m
  | e :: rest, k => applyEventsFrom (applyEvent m e k) rest (k + 1)

/-- Apply all parse events, display-order counter starting at 0. -/
def applyEvents (m : List OCGInfo) (evs : List OrderEvent) : List OCGInfo :=
  applyEventsFrom m evs 0

/-- Stable insertion of `g` into a list sorted by `displayOrder`
(equal keys keep the existing element first, like Python `sorted`). -/
def insertByOrder (g : OCGInfo) : List OCGInfo → List OCGInfo
  | [] => [g]
  | h :: t => if g.displayOrder ≤ h.displayOrder then g :: h :: t else h :: insertByOrder g t

/-- `sorted(layer_map.values(), key=lambda x: x.get('displayOrder', 0))`:
a stable sort by display order. -/
def sortByOrder : List OCGInfo → List OCGInfo
  | [] => []
  | h :: t => insertByOrder h (sortByOrder t)

/-- The list produced by `getLayerConfig` from the flat layer list, the
name-matching result and a given list of parse events. -/
def layerOutput (layers : List LayerUI) (xmap : List (Nat × Nat))
    (evs : List OrderEvent) : List OCGInfo :=
  sortByOrder (applyEvents (initMap layers xmap) evs)

/-- `getLayerConfig`: `none` models an absent (or `null`/empty) Order
value, in which case no parse happens and all defaults are kept. -/
def getLayerConfigModel (layers : List LayerUI) (xmap : List (Nat × Nat))
    (orderStr : Option (List Char)) : List OCGInfo :=
  layerOutput layers xmap
    (match orderStr with
     | some s => orderEvents xmap s
     | none => [])

/-- `getLayerConfig` when an exception aborts the `try` block after the
first `cut` depth/parent/order assignments: the loop stops, the partial
`layer_map` is kept, and the sort still runs (it is outside the `try`). -/
def getLayerConfigCut (layers : List LayerUI) (xmap : List (Nat × Nat))
    (orderStr : List Char) (cut : Nat) : List OCGInfo :=
  layerOutput layers xmap ((orderEvents xmap orderStr).take cut)

/-! ## Write path: `modify_pdf_order` inside `addOCGWithParent` -/

/-- The boundary test of step 1: the remaining text starts with the child
token and the token is followed by a space, `]`, or the end of the text. -/
def boundaryAt (cRef s : List Char) : Bool :=
  cRef.isPrefixOf s &&
    (match s.drop cRef.length with
     | [] => true
     | c :: _ => c = ' ' || c = ']')

/-- Step 1 of `modify_pdf_order`: scan the text tracking bracket depth and
remove the first occurrence of the child token found at root level
(depth 1), together with any whitespace immediately following it.
`fuel` bounds the recursion; `length + 1` always suffices. -/
def removeChildLoop (cRef : List Char) : Nat → List Char → Int → Bool → List Char
  | 0, s, _, _ => s
  | _ + 1, [], _, _ => []
  | fuel + 1, ch :: rest, d, removed =>
    if ch = '[' then '[' :: removeChildLoop cRef fuel rest (d + 1) removed
    else if ch = ']' then ']' :: removeChildLoop cRef fuel rest (d - 1) removed
    else if !removed && d = 1 && boundaryAt cRef (ch :: rest) then
      removeChildLoop cRef fuel
        (((ch :: rest).drop cRef.length).dropWhile isSpaceChar) d true
    else ch :: removeChildLoop cRef fuel rest d removed

/-- Step 1 at the top level (depth 0, nothing removed yet). -/
def removeChildRoot (s cRef : List Char) : List Char :=
  removeChildLoop cRef (s.length + 1) s 0 false

/-- Relative index of the `]` closing the bracket group the scan is
inside of (step 2's `arr_depth` loop); `none` when the text ends first. -/
def closeIdx : List Char → Nat → Option Nat
  | [], _ => none
  | c :: rest, d =>
    if c = '[' then (closeIdx rest (d + 1)).map (· + 1)
    else if c = ']' then
      if d = 1 then some 0 else (closeIdx rest (d - 1)).map (· + 1)
    else (closeIdx rest d).map (· + 1)

/-- `modify_pdf_order(order_string, p_ref, c_ref)`: remove the child from
the root level, then insert it under the first occurrence of the parent
token — inside the parent's existing child array if the next significant
character is `[`, as a new single-element array otherwise. When the
parent token is not found the cleaned text is returned as is. -/
def modifyPdfOrder (s pRef cRef : List Char) : List Char :=
  if s.isEmpty then s
  else
    let cleaned := removeChildRoot s cRef
    match findSub cleaned pRef with
    | none => cleaned
    | some pIdx =>
      let scanIdx := pIdx + pRef.length
      let after := cleaned.drop scanIdx
      let ws := after.takeWhile isSpaceChar
      match after.drop ws.length with
      | '[' :: arrRest =>
        match closeIdx arrRest 1 with
        | none => cleaned
        | some rel =>
          let ip := scanIdx + ws.length + 1 + rel
          cleaned.take ip ++ (' ' :: cRef) ++ cleaned.drop ip
      | _ =>
        cleaned.take scanIdx ++ (' ' :: '[' :: (cRef ++ [']'])) ++ cleaned.drop scanIdx

/-- The ordering-array rewrite performed by `addOCGWithParent` once the
engine's `add_ocg` has appended the child at the root: the Order value is
replaced by `modify_pdf_order(order, f"{parentXref} 0 R", f"{childXref} 0 R")`. -/
def addOCGWithParentOrder (order : List Char) (parentXref childXref : Nat) : List Char :=
  modifyPdfOrder order (refToken parentXref) (refToken childXref)

/-! ## Document handle: engine calls, closed-handle guard, page ops -/

/-- Calls issued to the embedded interpreter / engine, abstracted to the
arguments this layer passes through. `pyRun tag` stands for the generated
snippet of an operation whose arguments are not page indices. -/
inductive EngineCall
  | pageCountQ
  | deletePageC (i : Int)
  | movePageC (f t : Int)
  | copyPageC (f t : Int)
  | insertPageC (i w h : Int)
  | selectC (l : List Int)
  | docCloseC
  | unlinkC
  | pyRun (tag : Nat)
deriving DecidableEq, Repr

/-- The document handle's own state: the `closed` flag, plus the page
count the engine currently reports (`doc.page_count`). -/
structure DocSt where
  closed : Bool
  pages : Nat
deriving DecidableEq, Repr

/-- The message of the error thrown by `ensureOpen`. -/
def closedMsg : String := "Document has been closed"

/-- The bounds message of `getPage`:
`` `Page index ${index} out of range (0-${this.pageCount - 1})` ``. -/
def boundsMsg (i : Int) (n : Nat) : String :=
  "Page index " ++ toString i ++ " out of range (0-" ++ toString ((n : Int) - 1) ++ ")"

/-- JavaScript `Array.prototype.sort` with comparator `(a, b) => b - a`:
a stable descending sort, modelled as stable insertion. -/
def insDesc (x : Int) : List Int → List Int
  | [] => [x]
  | y :: ys => if y < x then x :: y :: ys else y :: insDesc x ys

/-- Stable descending sort of a list of JavaScript numbers. -/
def sortDescInt : List Int → List Int
  | [] => []
  | x :: xs => insDesc x (sortDescInt xs)

/-- The public operations of the document handle that the claims quantify
over (every method of the class begins with `this.ensureOpen()`). -/
inductive DocOp
  | pageCountOp
  | isPdfOp
  | isEncryptedOp
  | needsPassOp
  | metadataOp
  | getPageOp (i : Int)
  | deletePageOp (i : Int)
  | deletePagesOp (l : List Int)
  | insertBlankPageOp (i : Int)
  | movePageOp (f t : Int)
  | copyPageOp (f t : Int)
  | selectPagesOp (l : List Int)
  | getTocOp
  | saveOp
  | getLayerConfigOp
  | addOCGOp
  | addOCGWithParentOp
  | setLayerVisibilityOp
  | deleteOCGOp
deriving DecidableEq, Repr

/-- `getPage(index)` on an open handle: the short-circuit condition
`index < 0 || index >= this.pageCount` reads the live page count only
when `index ≥ 0`; building the bounds message reads it once more. -/
def getPageCalls (st : DocSt) (i : Int) : List EngineCall × Except String Unit :=
  if i < 0 then ([.pageCountQ], .error (boundsMsg i st.pages))
  else if (st.pages : Int) ≤ i then ([.pageCountQ, .pageCountQ], .error (boundsMsg i st.pages))
  else ([.pageCountQ], .ok ())

/-- Run one handle operation: trace of engine calls and outcome. Every
branch first executes `ensureOpen`, which throws before any engine call
when the handle is closed. -/
def runOp (st : DocSt) : DocOp → List EngineCall × Except String Unit
  | .pageCountOp => if st.closed then ([], .error closedMsg) else ([.pageCountQ], .ok ())
  | .isPdfOp => if st.closed then ([], .error closedMsg) else ([.pyRun 0], .ok ())
  | .isEncryptedOp => if st.closed then ([], .error closedMsg) else ([.pyRun 1], .ok ())
  | .needsPassOp => if st.closed then ([], .error closedMsg) else ([.pyRun 2], .ok ())
  | .metadataOp => if st.closed then ([], .error closedMsg) else ([.pyRun 3], .ok ())
  | .getPageOp i => if st.closed then ([], .error closedMsg) else getPageCalls st i
  | .deletePageOp i =>
    if st.closed then ([], .error closedMsg) else ([.deletePageC i], .ok ())
  | .deletePagesOp l =>
    if st.closed then ([], .error closedMsg)
    else ((sortDescInt l).map .deletePageC, .ok ())
  | .insertBlankPageOp i =>
    if st.closed then ([], .error closedMsg)
    else
      let after : DocSt := ⟨false, st.pages + 1⟩
      ([.insertPageC i 595 842] ++ (getPageCalls after i).1, (getPageCalls after i).2)
  | .movePageOp f t =>
    if st.closed then ([], .error closedMsg) else ([.movePageC f t], .ok ())
  | .copyPageOp f t =>
    if st.closed then ([], .error closedMsg) else ([.copyPageC f t], .ok ())
  | .selectPagesOp l =>
    if st.closed then ([], .error closedMsg) else ([.selectC l], .ok ())
  | .getTocOp => if st.closed then ([], .error closedMsg) else ([.pyRun 4], .ok ())
  | .saveOp => if st.closed then ([], .error closedMsg) else ([.pyRun 5], .ok ())
  | .getLayerConfigOp => if st.closed then ([], .error closedMsg) else ([.pyRun 6], .ok ())
  | .addOCGOp => if st.closed then ([], .error closedMsg) else ([.pyRun 7], .ok ())
  | .addOCGWithParentOp =>
    if st.closed then ([], .error closedMsg) else ([.pyRun 8], .ok ())
  | .setLayerVisibilityOp =>
    if st.closed then ([], .error closedMsg) else ([.pyRun 9], .ok ())
  | .deleteOCGOp => if st.closed then ([], .error closedMsg) else ([.pyRun 10], .ok ())

/-- `close()`: a second call returns immediately; otherwise the engine
close and the input-file unlink run inside a `try` whose errors are
swallowed, and the flag is set. It never throws. -/
def closeModel (st : DocSt) : DocSt × List EngineCall × Except String Unit :=
  if st.closed then (st, [], .ok ())
  else ({ st with closed := true }, [.docCloseC, .unlinkC], .ok ())

/-- `delete_page` on the engine side, for the equivalence statement of
bulk deletion: removes the page at a valid index, an abstract engine
behaviour for the rest. -/
def deletePageEngine (doc : List Nat) (i : Int) : List Nat :=
  if 0 ≤ i then doc.eraseIdx i.toNat else doc

/-- `deletePages(indices)` against the engine page list: the loop body
issues `delete_page(i)` for each `i` of the descending-sorted copy. -/
def deletePagesModel (doc : List Nat) (indices : List Int) : List Nat :=
  (sortDescInt indices).foldl deletePageEngine doc

/-! ## Heap model for the argument array of `deletePages` -/

/-- A heap of JavaScript number arrays; a reference is an index. -/
abbrev JsHeap := List (List Int)

/-- Read an array from the heap. -/
def heapGet (h : JsHeap) (r : Nat) : List Int := (h[r]?).getD []

/-- Overwrite an array cell in place. -/
def heapSet (h : JsHeap) (r : Nat) (v : List Int) : JsHeap := h.set r v

/-- `deletePages` at heap level: `[...indices]` allocates a fresh array
holding a copy of the argument's contents, `.sort((a, b) => b - a)`
mutates that fresh array in place, and the loop then reads it. Returns
the final heap and the issued engine calls. -/
def deletePagesHeap (h : JsHeap) (r : Nat) : JsHeap × List EngineCall :=
  let copyRef := h.length
  let h1 := h ++ [heapGet h r]
  let h2 := heapSet h1 copyRef (sortDescInt (heapGet h1 copyRef))
  (h2, (heapGet h2 copyRef).map .deletePageC)

/-! ## `compressPdf` result metrics -/

/-- JavaScript `Math.round` on an exact rational: round half toward
positive infinity. -/
def roundJS (q : Rat) : Int := ⌊q + 1 / 2⌋

/-- The numeric fields of the object returned by `compressPdf`. -/
structure CompressResultM where
  originalSize : Nat
  compressedSize : Nat
  savings : Int
  savingsPercent : Rat
  pageCount : Nat
deriving DecidableEq, Repr

/-- `compressPdf` metrics: `originalSize` is the byte length of the
caller-supplied input measured before anything runs; `pageCountIn` is the
page count the engine reports for the input before scrubbing;
`compressedSize` is the engine output length. JavaScript float arithmetic
is modelled exactly over `Rat`. -/
def compressPdfModel (originalSize compressedSize pageCountIn : Nat) : CompressResultM :=
  let savings : Int := (originalSize : Int) - (compressedSize : Int)
  let savingsPercent : Rat :=
    if 0 < originalSize then ((savings : Rat) / (originalSize : Rat)) * 100 else 0
  { originalSize := originalSize
    compressedSize := compressedSize
    savings := savings
    savingsPercent := (roundJS (savingsPercent * 10) : Rat) / 10
    pageCount := pageCountIn }

/-! ## `split` range clamping -/

/-- One iteration of the `split` loop: clamp the requested range to the
document (`start` to at least 0, `end` to at most `pageCount - 1`) and
skip it (`continue`) when the clamped start exceeds the clamped end.
`some` carries the page range actually used to build a blob. -/
def clampRange (pc : Int) (r : Int × Int) : Option (Int × Int) :=
  let s := max 0 r.1
  let e := min (pc - 1) r.2
  if e < s then none else some (s, e)

/-- The ranges for which `split` emits a blob, in order. -/
def splitModel (pc : Int) (ranges : List (Int × Int)) : List (Int × Int) :=
  ranges.filterMap (clampRange pc)

/-- The flat-descriptor part of an emitted layer record. -/
def projFlat (g : OCGInfo) : Nat × String × Bool × Bool := (g.number, g.text, g.isOn, g.locked)

/-- The flat-descriptor part of a `layer_ui_configs` entry. -/
def projLayer (l : LayerUI) : Nat × String × Bool × Bool := (l.number, l.text, l.isOn, l.locked)

/-! ## Helper lemmas: the stable sorts -/

theorem insertByOrder_perm (g : OCGInfo) (l : List OCGInfo) :
    List.Perm (insertByOrder g l) (g :: l) := by
  induction l with
  | nil => simp [insertByOrder]
  | cons b t ih =>
    by_cases hc : g.displayOrder ≤ b.displayOrder
    · simp [insertByOrder, hc]
    · simp only [insertByOrder, if_neg hc]
      exact (List.Perm.cons b ih).trans (List.Perm.swap g b t)

theorem sortByOrder_perm (l : List OCGInfo) : List.Perm (sortByOrder l) l := by
  induction l with
  | nil => simp [sortByOrder]
  | cons b t ih =>
    simp only [sortByOrder]
    exact (insertByOrder_perm b (sortByOrder t)).trans (List.Perm.cons b ih)

theorem mem_insertByOrder {a g : OCGInfo} {l : List OCGInfo} :
    a ∈ insertByOrder g l ↔ a = g ∨ a ∈ l := by
  rw [(insertByOrder_perm g l).mem_iff, List.mem_cons]

theorem insertByOrder_pairwise {g : OCGInfo} {l : List OCGInfo}
    (hl : l.Pairwise fun x y => x.displayOrder ≤ y.displayOrder) :
    (insertByOrder g l).Pairwise fun x y => x.displayOrder ≤ y.displayOrder := by
  induction l with
  | nil => simp [insertByOrder]
  | cons b t ih =>
    rcases List.pairwise_cons.mp hl with ⟨hb, ht⟩
    by_cases hc : g.displayOrder ≤ b.displayOrder
    · simp only [insertByOrder, if_pos hc]
      refine List.pairwise_cons.mpr ⟨?_, hl⟩
      intro y hy
      rcases List.mem_cons.mp hy with rfl | hy'
      · exact hc
      · exact hc.trans (hb y hy')
    · simp only [insertByOrder, if_neg hc]
      refine List.pairwise_cons.mpr ⟨?_, ih ht⟩
      intro y hy
      rcases mem_insertByOrder.mp hy with rfl | hy'
      · exact le_of_not_le hc
      · exact hb y hy'

theorem sortByOrder_pairwise (l : List OCGInfo) :
    (sortByOrder l).Pairwise fun x y => x.displayOrder ≤ y.displayOrder := by
  induction l with
  | nil => simp [sortByOrder]
  | cons b t ih =>
    simp only [sortByOrder]
    exact insertByOrder_pairwise ih

theorem insDesc_perm (x : Int) (l : List Int) : List.Perm (insDesc x l) (x :: l) := by
  induction l with
  | nil => simp [insDesc]
  | cons b t ih =>
    by_cases hc : b < x
    · simp [insDesc, hc]
    · simp only [insDesc, if_neg hc]
      exact (List.Perm.cons b ih).trans (List.Perm.swap x b t)

theorem sortDescInt_perm (l : List Int) : List.Perm (sortDescInt l) l := by
  induction l with
  | nil => simp [sortDescInt]
  | cons b t ih =>
    simp only [sortDescInt]
    exact (insDesc_perm b (sortDescInt t)).trans (List.Perm.cons b ih)

theorem mem_insDesc {a x : Int} {l : List Int} : a ∈ insDesc x l ↔ a = x ∨ a ∈ l := by
  rw [(insDesc_perm x l).mem_iff, List.mem_cons]

theorem insDesc_pairwise {x : Int} {l : List Int} (hl : l.Pairwise (· ≥ ·)) :
    (insDesc x l).Pairwise (· ≥ ·) := by
  induction l with
  | nil => simp [insDesc]
  | cons b t ih =>
    rcases List.pairwise_cons.mp hl with ⟨hb, ht⟩
    by_cases hc : b < x
    · simp only [insDesc, if_pos hc]
      refine List.pairwise_cons.mpr ⟨?_, hl⟩
      intro y hy
      rcases List.mem_cons.mp hy with rfl | hy'
      · exact le_of_lt hc
      · exact (hb y hy').trans (le_of_lt hc)
    · simp only [insDesc, if_neg hc]
      refine List.pairwise_cons.mpr ⟨?_, ih ht⟩
      intro y hy
      rcases mem_insDesc.mp hy with rfl | hy'
      · exact le_of_not_lt hc
      · exact hb y hy'

theorem sortDescInt_pairwise (l : List Int) : (sortDescInt l).Pairwise (· ≥ ·) := by
  induction l with
  | nil => simp [sortDescInt]
  | cons b t ih =>
    simp only [sortDescInt]
    exact insDesc_pairwise ih

theorem sortDescInt_strict {l : List Int} (h : l.Nodup) :
    (sortDescInt l).Pairwise (· > ·) := by
  have hnd : (sortDescInt l).Nodup := ((sortDescInt_perm l).nodup_iff).mpr h
  have hall := (sortDescInt_pairwise l).and hnd
  exact hall.imp fun hab => lt_of_le_of_ne hab.1 (Ne.symm hab.2)

/-! ## Helper lemmas: layer map assembly -/

theorem mem_applyEvent {m : List OCGInfo} {e : OrderEvent} {k : Nat} {g : OCGInfo}
    (hg : g ∈ applyEvent m e k) : g.number = e.num ∨ g ∈ m := by
  rcases List.mem_map.mp hg with ⟨a, ha, rfl⟩
  by_cases hn : a.number = e.num
  · left
    simp [if_pos hn, hn]
  · right
    simpa [if_neg hn] using ha

theorem mem_applyEventsFrom : ∀ {evs : List OrderEvent} {m : List OCGInfo} {k : Nat}
    {g : OCGInfo}, g ∈ applyEventsFrom m evs k →
    g.number ∉ evs.map OrderEvent.num → g ∈ m := by
  intro evs
  induction evs with
  | nil =>
    intro m k g hg _
    simpa [applyEventsFrom] using hg
  | cons e rest ih =>
    intro m k g hg hn
    have hrest : g.number ∉ rest.map OrderEvent.num := by
      intro hmem
      exact hn (by simp [hmem])
    have h1 : g ∈ applyEvent m e k :=
      ih (by simpa [applyEventsFrom] using hg) hrest
    rcases mem_applyEvent h1 with he | hm
    · exact absurd (by simp [he]) hn
    · exact hm

theorem mem_foldl_setXref : ∀ (xl : List (Nat × Nat)) (m : List OCGInfo),
    (∀ g ∈ m, g.depth = 0 ∧ g.parentXref = 0 ∧ g.displayOrder = 0) →
    ∀ g ∈ xl.foldl (fun acc p => setXref acc p.1 p.2) m,
      g.depth = 0 ∧ g.parentXref = 0 ∧ g.displayOrder = 0 := by
  intro xl
  induction xl with
  | nil =>
    intro m hm
    simpa using hm
  | cons p rest ih =>
    intro m hm
    refine ih (setXref m p.1 p.2) ?_
    intro g hg
    rcases List.mem_map.mp hg with ⟨a, ha, rfl⟩
    by_cases hn : a.number = p.2
    · simpa [if_pos hn] using hm a ha
    · simpa [if_neg hn] using hm a ha

theorem initMap_default {layers : List LayerUI} {xmap : List (Nat × Nat)} {g : OCGInfo}
    (hg : g ∈ initMap layers xmap) :
    g.depth = 0 ∧ g.parentXref = 0 ∧ g.displayOrder = 0 := by
  refine mem_foldl_setXref xmap (layers.map initLayer) ?_ g hg
  intro a ha
  rcases List.mem_map.mp ha with ⟨l, _, rfl⟩
  exact ⟨rfl, rfl, rfl⟩

theorem projFlat_applyEvent (m : List OCGInfo) (e : OrderEvent) (k : Nat) :
    (applyEvent m e k).map projFlat = m.map projFlat := by
  unfold applyEvent
  rw [List.map_map]
  apply List.map_congr_left
  intro a _
  by_cases hn : a.number = e.num <;> simp [hn, projFlat]

theorem projFlat_applyEventsFrom : ∀ (evs : List OrderEvent) (m : List OCGInfo) (k : Nat),
    (applyEventsFrom m evs k).map projFlat = m.map projFlat := by
  intro evs
  induction evs with
  | nil =>
    intro m k
    simp [applyEventsFrom]
  | cons e rest ih =>
    intro m k
    simp only [applyEventsFrom]
    rw [ih, projFlat_applyEvent]

theorem projFlat_setXref (m : List OCGInfo) (x n : Nat) :
    (setXref m x n).map projFlat = m.map projFlat := by
  unfold setXref
  rw [List.map_map]
  apply List.map_congr_left
  intro a _
  by_cases hn : a.number = n <;> simp [hn, projFlat]

theorem projFlat_initMap (layers : List LayerUI) (xmap : List (Nat × Nat)) :
    (initMap layers xmap).map projFlat = layers.map projLayer := by
  unfold initMap
  have hfold : ∀ (xl : List (Nat × Nat)) (m : List OCGInfo),
      (xl.foldl (fun acc p => setXref acc p.1 p.2) m).map projFlat = m.map projFlat := by
    intro xl
    induction xl with
    | nil => intro m; rfl
    | cons p rest ih =>
      intro m
      simp only [List.foldl_cons]
      rw [ih, projFlat_setXref]
  rw [hfold]
  rw [List.map_map]
  apply List.map_congr_left
  intro l _
  rfl

theorem layerOutput_perm_proj (layers : List LayerUI) (xmap : List (Nat × Nat))
    (evs : List OrderEvent) :
    List.Perm ((layerOutput layers xmap evs).map projFlat) (layers.map projLayer) := by
  unfold layerOutput applyEvents
  have h1 := (sortByOrder_perm (applyEventsFrom (initMap layers xmap) evs 0)).map projFlat
  rwa [projFlat_applyEventsFrom, projFlat_initMap] at h1

theorem layerOutput_defaults {layers : List LayerUI} {xmap : List (Nat × Nat)}
    {evs : List OrderEvent} {g : OCGInfo} (hg : g ∈ layerOutput layers xmap evs)
    (hn : g.number ∉ evs.map OrderEvent.num) :
    g.depth = 0 ∧ g.parentXref = 0 ∧ g.displayOrder = 0 := by
  have h1 : g ∈ applyEventsFrom (initMap layers xmap) evs 0 :=
    (sortByOrder_perm _).mem_iff.mp hg
  exact initMap_default (mem_applyEventsFrom h1 hn)

/-! ## Helper lemmas: the ordering-array editor -/

theorem removeChildLoop_length (cRef : List Char) : ∀ (fuel : Nat) (s : List Char)
    (d : Int) (rem : Bool), (removeChildLoop cRef fuel s d rem).length ≤ s.length := by
  intro fuel
  induction fuel with
  | zero =>
    intro s d rem
    simp [removeChildLoop]
  | succ n ih =>
    intro s d rem
    cases s with
    | nil => simp [removeChildLoop]
    | cons ch rest =>
      simp only [removeChildLoop]
      by_cases h1 : ch = '['
      · simp only [if_pos h1, List.length_cons]
        exact Nat.succ_le_succ (ih rest (d + 1) rem)
      · simp only [if_neg h1]
        by_cases h2 : ch = ']'
        · simp only [if_pos h2, List.length_cons]
          exact Nat.succ_le_succ (ih rest (d - 1) rem)
        · simp only [if_neg h2]
          by_cases h3 : (!rem && decide (d = 1) && boundaryAt cRef (ch :: rest)) = true
          · simp only [h3, if_true]
            calc (removeChildLoop cRef n
                    (((ch :: rest).drop cRef.length).dropWhile isSpaceChar) d true).length
                ≤ (((ch :: rest).drop cRef.length).dropWhile isSpaceChar).length := ih _ _ _
              _ ≤ ((ch :: rest).drop cRef.length).length :=
                  ((List.dropWhile_suffix isSpaceChar).sublist).length_le
              _ ≤ (ch :: rest).length := by
                  rw [List.length_drop]
                  exact Nat.sub_le _ _
          · simp only [h3, if_false, List.length_cons]
            exact Nat.succ_le_succ (ih rest d rem)

/-- `close()` on an already-closed handle returns it unchanged with no
engine calls and no error. -/
theorem closeModel_closed {s : DocSt} (h : s.closed = true) :
    closeModel s = (s, [], Except.ok ()) := by
  simp [closeModel, h]

/-- After any `close()`, the handle's `closed` flag is set. -/
theorem closeModel_fst_closed (st : DocSt) : (closeModel st).1.closed = true := by
  unfold closeModel
  cases h : st.closed <;> simp [h]

/-! ## Claim C1 -/

/-- Claim C1 (counterexample): ordering array `[5 0 R 99 0 R]`, parent
xref 7 (whose token occurs nowhere in the array), freshly created child
xref 99. Before the call the child's token sits at root level (index 7);
after the `addOCGWithParent` rewrite it occurs nowhere at all — the array
does not still contain the new group's reference at the root level. -/
theorem addOCGWithParent_orphan_counterexample :
    addOCGWithParentOrder "[5 0 R 99 0 R]".data 7 99 = "[5 0 R ]".data ∧
    findSub "[5 0 R 99 0 R]".data (refToken 7) = none ∧
    findSub "[5 0 R 99 0 R]".data (refToken 99) = some 7 ∧
    findSub (addOCGWithParentOrder "[5 0 R 99 0 R]".data 7 99) (refToken 99) = none := by
  decide

/-- Claim C1 (amended): when the parent reference token cannot be found in
the cleaned ordering text, the insertion step of `addOCGWithParent` is
silently skipped — no error is surfaced — and the written-back ordering
array is exactly the input with the first root-level occurrence of the new
group's reference (and trailing whitespace) removed; in particular nothing
is inserted, so the result is never longer than the input. -/
theorem addOCGWithParent_parent_missing (order : List Char) (p c : Nat)
    (h0 : order ≠ [])
    (h : findSub (removeChildRoot order (refToken c)) (refToken p) = none) :
    addOCGWithParentOrder order p c = removeChildRoot order (refToken c) ∧
    (addOCGWithParentOrder order p c).length ≤ order.length := by
  have he : order.isEmpty = false := by
    cases order with
    | nil => exact absurd rfl h0
    | cons a t => rfl
  have heq : addOCGWithParentOrder order p c = removeChildRoot order (refToken c) := by
    unfold addOCGWithParentOrder modifyPdfOrder
    rw [he]
    simp [h]
  refine ⟨heq, ?_⟩
  rw [heq]
  exact removeChildLoop_length (refToken c) (order.length + 1) order 0 false

/-- Claim C1 (witness). -/
theorem addOCGWithParent_parent_missing_w :
    "[6 0 R 42 0 R]".data ≠ ([] : List Char) ∧
    findSub (removeChildRoot "[6 0 R 42 0 R]".data (refToken 42)) (refToken 8) = none ∧
    (addOCGWithParentOrder "[6 0 R 42 0 R]".data 8 42 =
        removeChildRoot "[6 0 R 42 0 R]".data (refToken 42) ∧
      (addOCGWithParentOrder "[6 0 R 42 0 R]".data 8 42).length ≤
        ("[6 0 R 42 0 R]".data).length) :=
  ⟨by decide, by decide,
    addOCGWithParent_parent_missing "[6 0 R 42 0 R]".data 8 42 (by decide) (by decide)⟩

/-! ## Claim C2 -/

/-- Claim C2 (failing input): the parent token `7 0 R` is present in the
ordering array `[[17 0 R] 7 0 R 99 0 R]` (parent 7 at depth 0, child 99
freshly appended at the root), but `addOCGWithParent` locates the parent
with a raw substring `find`, which matches the `7 0 R` suffix inside
`17 0 R`; the child is inserted under 17, and re-parsing reports the new
group at depth 2 with parent reference 17 — not at the parent's depth + 1
(which is 1) and not with parent reference 7, contradicting the claim. -/
theorem addOCGWithParent_wrong_parent_failing :
    addOCGWithParentOrder "[[17 0 R] 7 0 R 99 0 R]".data 7 99 =
      "[[17 0 R [99 0 R]] 7 0 R ]".data ∧
    getLayerConfigModel
        [⟨0, "L17", true, false⟩, ⟨1, "L7", true, false⟩, ⟨2, "L99", true, false⟩]
        [(17, 0), (7, 1), (99, 2)]
        (some (addOCGWithParentOrder "[[17 0 R] 7 0 R 99 0 R]".data 7 99)) =
      [⟨0, "L17", true, false, 1, 17, 0, 0⟩,
       ⟨2, "L99", true, false, 2, 99, 17, 1⟩,
       ⟨1, "L7", true, false, 0, 7, 0, 2⟩] := by
  decide

/-! ## Claim C3 -/

/-- Claim C3 (counterexample): group A (layer 0) is encountered first in
the ordering array and so keeps display order 0, tying with group B
(layer 1) which is never encountered; the stable sort then emits
encountered A before unencountered B, so a group never encountered in the
ordering array does not sort before all encountered groups. -/
theorem getLayerConfig_tie_counterexample :
    getLayerConfigModel [⟨0, "A", true, false⟩, ⟨1, "B", true, false⟩] [(5, 0)]
        (some "[5 0 R]".data) =
      [⟨0, "A", true, false, 0, 5, 0, 0⟩, ⟨1, "B", true, false, 0, 0, 0, 0⟩] ∧
    (orderEvents [(5, 0)] "[5 0 R]".data).map OrderEvent.num = [0] := by
  decide

/-- Claim C3 (amended): `getLayerConfig` emits descriptors sorted by
display order (non-decreasing); every group never encountered in the
ordering array keeps display order 0, depth 0 and no parent — so it sorts
before every group with positive display order, but ties with the group
encountered first (also display order 0) and with other unencountered
groups, ties keeping flat-list order. For a document with A at the root
and B a child of A, A is reported at depth 0 with no parent and B at
depth 1 with parent A, B's display order greater than A's. -/
theorem getLayerConfig_displayOrder_amended :
    (∀ (layers : List LayerUI) (xmap : List (Nat × Nat)) (ord : Option (List Char)),
      (getLayerConfigModel layers xmap ord).Pairwise
        fun a b => a.displayOrder ≤ b.displayOrder) ∧
    (∀ (layers : List LayerUI) (xmap : List (Nat × Nat)) (s : List Char) (g : OCGInfo),
      g ∈ getLayerConfigModel layers xmap (some s) →
      g.number ∉ (orderEvents xmap s).map OrderEvent.num →
      g.depth = 0 ∧ g.parentXref = 0 ∧ g.displayOrder = 0) ∧
    getLayerConfigModel [⟨0, "A", true, false⟩, ⟨1, "B", true, false⟩] [(5, 0), (6, 1)]
        (some "[5 0 R [6 0 R]]".data) =
      [⟨0, "A", true, false, 0, 5, 0, 0⟩, ⟨1, "B", true, false, 1, 6, 5, 1⟩] := by
  refine ⟨?_, ?_, by decide⟩
  · intro layers xmap ord
    exact sortByOrder_pairwise _
  · intro layers xmap s g hg hn
    exact layerOutput_defaults hg hn

/-- Claim C3 (witness). -/
theorem getLayerConfig_displayOrder_amended_w :
    (⟨1, "B", true, false, 0, 0, 0, 0⟩ : OCGInfo) ∈
      getLayerConfigModel [⟨0, "A", true, false⟩, ⟨1, "B", true, false⟩] [(5, 0)]
        (some "[5 0 R]".data) ∧
    (⟨1, "B", true, false, 0, 0, 0, 0⟩ : OCGInfo).number ∉
      (orderEvents [(5, 0)] "[5 0 R]".data).map OrderEvent.num ∧
    ((⟨1, "B", true, false, 0, 0, 0, 0⟩ : OCGInfo).depth = 0 ∧
      (⟨1, "B", true, false, 0, 0, 0, 0⟩ : OCGInfo).parentXref = 0 ∧
      (⟨1, "B", true, false, 0, 0, 0, 0⟩ : OCGInfo).displayOrder = 0) :=
  ⟨by decide, by decide,
    getLayerConfig_displayOrder_amended.2.1
      [⟨0, "A", true, false⟩, ⟨1, "B", true, false⟩] [(5, 0)] "[5 0 R]".data
      ⟨1, "B", true, false, 0, 0, 0, 0⟩ (by decide) (by decide)⟩

/-! ## Claim C4 -/

/-- Claim C4: `deletePages(indices)` issues exactly one `delete_page` call
per element of the descending-sorted copy of `indices`; that copy is a
permutation of `indices`, is sorted in descending order (strictly so for
distinct indices); and on the engine page-list model,
`deletePages([5, 2, 7])` equals `deletePage(7)`, then `deletePage(5)`,
then `deletePage(2)` applied to the original document. -/
theorem deletePages_descending_equiv :
    ∀ (indices : List Int),
      (∀ (n : Nat), (runOp ⟨false, n⟩ (.deletePagesOp indices)).1 =
        (sortDescInt indices).map EngineCall.deletePageC) ∧
      List.Perm (sortDescInt indices) indices ∧
      (sortDescInt indices).Pairwise (· ≥ ·) ∧
      (indices.Nodup → (sortDescInt indices).Pairwise (· > ·)) ∧
      (∀ (doc : List Nat), deletePagesModel doc [5, 2, 7] =
        deletePageEngine (deletePageEngine (deletePageEngine doc 7) 5) 2) := by
  intro indices
  refine ⟨fun n => rfl, sortDescInt_perm indices, sortDescInt_pairwise indices,
    fun h => sortDescInt_strict h, fun doc => ?_⟩
  have hs : sortDescInt [5, 2, 7] = [7, 5, 2] := by decide
  unfold deletePagesModel
  rw [hs]
  rfl

/-- Claim C4 (witness). -/
theorem deletePages_descending_equiv_w :
    List.Nodup [(5 : Int), 2, 7] ∧ (sortDescInt [5, 2, 7]).Pairwise (· > ·) :=
  ⟨by decide, (deletePages_descending_equiv [5, 2, 7]).2.2.2.1 (by decide)⟩

/-! ## Claim C5 -/

/-- Claim C5: after `close()`, every handle operation fails with the
"Document has been closed" error before issuing any engine call, while a
second `close()` issues no engine call, reports success, and leaves the
state unchanged. -/
theorem closed_handle_guard :
    ∀ (st : DocSt) (op : DocOp),
      runOp (closeModel st).1 op = ([], Except.error closedMsg) ∧
      (closeModel (closeModel st).1).2 = ([], Except.ok ()) ∧
      (closeModel (closeModel st).1).1 = (closeModel st).1 := by
  intro st op
  have hc : (closeModel st).1.closed = true := closeModel_fst_closed st
  refine ⟨?_, ?_, ?_⟩
  · cases op <;> simp [runOp, hc]
  · rw [closeModel_closed hc]
  · rw [closeModel_closed hc]

/-! ## Claim C6 -/

/-- Claim C6 (counterexample): on an open one-page document, `deletePage`
with the out-of-range index 99 raises no bounds error in this layer — the
raw index is passed straight to the engine — and likewise `movePage`. -/
theorem deletePage_unvalidated_counterexample :
    runOp ⟨false, 1⟩ (.deletePageOp 99) = ([EngineCall.deletePageC 99], Except.ok ()) ∧
    runOp ⟨false, 1⟩ (.movePageOp 99 0) = ([EngineCall.movePageC 99 0], Except.ok ()) :=
  ⟨rfl, rfl⟩

/-- Claim C6 (amended): only `getPage` validates its index against the
live page count, failing with the descriptive bounds message for any
out-of-range index; `deletePage`, `movePage` and `copyPage` perform no
validation and forward the raw indices to the engine; `insertBlankPage`
issues the raw engine insert unconditionally and validates only via the
`getPage` call it makes after the insertion, against the post-insertion
live page count — so an out-of-range index still reaches the engine and
then fails with the bounds message for that incremented count. -/
theorem page_index_validation_amended :
    (∀ (n : Nat) (i : Int), i < 0 ∨ (n : Int) ≤ i →
      (runOp ⟨false, n⟩ (.getPageOp i)).2 = Except.error (boundsMsg i n)) ∧
    (∀ (n : Nat) (i : Int), runOp ⟨false, n⟩ (.deletePageOp i) =
      ([EngineCall.deletePageC i], Except.ok ())) ∧
    (∀ (n : Nat) (f t : Int), runOp ⟨false, n⟩ (.movePageOp f t) =
      ([EngineCall.movePageC f t], Except.ok ())) ∧
    (∀ (n : Nat) (f t : Int), runOp ⟨false, n⟩ (.copyPageOp f t) =
      ([EngineCall.copyPageC f t], Except.ok ())) ∧
    (∀ (n : Nat) (i : Int), runOp ⟨false, n⟩ (.insertBlankPageOp i) =
      (EngineCall.insertPageC i 595 842 :: (getPageCalls ⟨false, n + 1⟩ i).1,
        (getPageCalls ⟨false, n + 1⟩ i).2)) ∧
    (∀ (n : Nat) (i : Int), i < 0 ∨ (n : Int) + 1 ≤ i →
      (runOp ⟨false, n⟩ (.insertBlankPageOp i)).2 = Except.error (boundsMsg i (n + 1))) := by
  refine ⟨?_, fun n i => rfl, fun n f t => rfl, fun n f t => rfl, fun n i => rfl, ?_⟩
  · intro n i h
    rcases h with h1 | h2
    · simp [runOp, getPageCalls, h1]
    · have h0 : ¬ i < 0 := not_lt.mpr (le_trans (Int.natCast_nonneg n) h2)
      simp [runOp, getPageCalls, h0, h2]
  · intro n i h
    rcases h with h1 | h2
    · simp [runOp, getPageCalls, h1]
    · have h2' : ((n + 1 : Nat) : Int) ≤ i := by
        push_cast
        exact h2
      have h0 : ¬ i < 0 := not_lt.mpr (le_trans (Int.natCast_nonneg (n + 1)) h2')
      simp [runOp, getPageCalls, h0, h2', h2]

/-- Claim C6 (witness). -/
theorem page_index_validation_amended_w :
    ((99 : Int) < 0 ∨ ((3 : Nat) : Int) ≤ 99) ∧
    (runOp ⟨false, 3⟩ (.getPageOp 99)).2 = Except.error (boundsMsg 99 3) ∧
    ((99 : Int) < 0 ∨ ((3 : Nat) : Int) + 1 ≤ 99) ∧
    (runOp ⟨false, 3⟩ (.insertBlankPageOp 99)).2 = Except.error (boundsMsg 99 4) :=
  ⟨Or.inr (by norm_num), page_index_validation_amended.1 3 99 (Or.inr (by norm_num)),
    Or.inr (by norm_num),
    page_index_validation_amended.2.2.2.2.2 3 99 (Or.inr (by norm_num))⟩

/-! ## Claim C7 -/

/-- Claim C7: `compressPdf` reports `originalSize` equal to the input byte
length measured before any mutation, `compressedSize` as delivered by the
engine (nothing forces it to be at most the original size), `savings`
equal to their difference, `pageCount` equal to the input's page count
read before compression, and `savingsPercent` exactly equal to
`round((N - compressedSize) / N * 1000) / 10`. -/
theorem compress_metrics (N c p : Nat) (h : 0 < N) :
    (compressPdfModel N c p).originalSize = N ∧
    (compressPdfModel N c p).compressedSize = c ∧
    (compressPdfModel N c p).savings = (N : Int) - (c : Int) ∧
    (compressPdfModel N c p).pageCount = p ∧
    (compressPdfModel N c p).savingsPercent =
      (roundJS ((((N : Rat) - (c : Rat)) / (N : Rat)) * 1000) : Rat) / 10 := by
  refine ⟨rfl, rfl, rfl, rfl, ?_⟩
  have harg : ((((N : Int) - (c : Int) : Int) : Rat) / (N : Rat)) * 100 * 10 =
      (((N : Rat) - (c : Rat)) / (N : Rat)) * 1000 := by
    push_cast
    ring
  simp only [compressPdfModel, if_pos h]
  rw [harg]

/-- Claim C7 (witness), at an input where the compressed output is larger
than the original (permitted: savings and percentage go negative). -/
theorem compress_metrics_w :
    0 < 10 ∧
    ((compressPdfModel 10 25 3).originalSize = 10 ∧
      (compressPdfModel 10 25 3).compressedSize = 25 ∧
      (compressPdfModel 10 25 3).savings = (10 : Int) - (25 : Int) ∧
      (compressPdfModel 10 25 3).pageCount = 3 ∧
      (compressPdfModel 10 25 3).savingsPercent =
        (roundJS ((((10 : Rat) - (25 : Rat)) / (10 : Rat)) * 1000) : Rat) / 10) :=
  ⟨by norm_num, compress_metrics 10 25 3 (by norm_num)⟩

/-! ## Claim C9 -/

theorem heapGet_set_ne {h : JsHeap} {m n : Nat} (hne : m ≠ n) (v : List Int) :
    heapGet (h.set m v) n = heapGet h n := by
  unfold heapGet
  rw [List.getElem?_set_ne hne]

theorem heapGet_append_lt {h : JsHeap} {n : Nat} (hl : n < h.length) (t : JsHeap) :
    heapGet (h ++ t) n = heapGet h n := by
  unfold heapGet
  rw [List.getElem?_append, if_pos hl]

theorem heapGet_concat (h : JsHeap) (v : List Int) : heapGet (h ++ [v]) h.length = v := by
  unfold heapGet
  rw [List.getElem?_concat_length]
  rfl

theorem heapGet_set_self {h : JsHeap} {n : Nat} (hl : n < h.length) (v : List Int) :
    heapGet (h.set n v) n = v := by
  unfold heapGet
  rw [List.getElem?_set_self hl]
  rfl

/-- Claim C9: `deletePages` never mutates the caller's array — the
descending sort happens in place on the fresh copy allocated by
`[...indices]`, so after the call the caller's heap cell is unchanged,
and the issued deletions are the descending sort of its contents. -/
theorem deletePages_arg_unchanged (h : JsHeap) (r : Nat) (hr : r < h.length) :
    heapGet (deletePagesHeap h r).1 r = heapGet h r ∧
    (deletePagesHeap h r).2 = (sortDescInt (heapGet h r)).map EngineCall.deletePageC := by
  have hne : h.length ≠ r := Nat.ne_of_gt hr
  have hlen : h.length < (h ++ [heapGet h r]).length := by
    simp
  constructor
  · show heapGet (heapSet (h ++ [heapGet h r]) h.length
      (sortDescInt (heapGet (h ++ [heapGet h r]) h.length))) r = heapGet h r
    unfold heapSet
    rw [heapGet_set_ne hne, heapGet_append_lt hr]
  · show (heapGet (heapSet (h ++ [heapGet h r]) h.length
        (sortDescInt (heapGet (h ++ [heapGet h r]) h.length))) h.length).map
        EngineCall.deletePageC = (sortDescInt (heapGet h r)).map EngineCall.deletePageC
    unfold heapSet
    rw [heapGet_concat, heapGet_set_self hlen]

/-- Claim C9 (witness). -/
theorem deletePages_arg_unchanged_w :
    0 < ([[ (5 : Int), 2, 7 ]] : JsHeap).length ∧
    (heapGet (deletePagesHeap [[(5 : Int), 2, 7]] 0).1 0 = heapGet [[(5 : Int), 2, 7]] 0 ∧
      (deletePagesHeap [[(5 : Int), 2, 7]] 0).2 =
        (sortDescInt (heapGet [[(5 : Int), 2, 7]] 0)).map EngineCall.deletePageC) :=
  ⟨by decide, deletePages_arg_unchanged [[(5 : Int), 2, 7]] 0 (by decide)⟩

/-! ## Claim C10 -/

/-- Claim C10: every `split` range is clamped before use (start to at
least 0, end to at most `pageCount - 1`); a range whose clamped start
exceeds its clamped end is silently skipped, so the result can have fewer
entries than the request list, and never more. -/
theorem split_clamps :
    (∀ (pc : Int) (ranges : List (Int × Int)),
      (splitModel pc ranges).length ≤ ranges.length) ∧
    (∀ (pc : Int) (ranges : List (Int × Int)) (r : Int × Int), r ∈ splitModel pc ranges →
      0 ≤ r.1 ∧ r.1 ≤ r.2 ∧ r.2 ≤ pc - 1) ∧
    (∀ (pc : Int) (q : Int × Int) (rest : List (Int × Int)), clampRange pc q = none →
      splitModel pc (q :: rest) = splitModel pc rest) ∧
    splitModel 3 [(0, 1), (5, 9)] = [(0, 1)] := by
  refine ⟨?_, ?_, ?_, by decide⟩
  · intro pc ranges
    exact List.length_filterMap_le _ _
  · intro pc ranges r hr
    rcases List.mem_filterMap.mp hr with ⟨q, hq, hclamp⟩
    unfold clampRange at hclamp
    by_cases hc : min (pc - 1) q.2 < max 0 q.1
    · simp [hc] at hclamp
    · simp only [if_neg hc] at hclamp
      injection hclamp with hpair
      subst hpair
      exact ⟨le_max_left _ _, not_lt.mp hc, min_le_left _ _⟩
  · intro pc q rest hnone
    simp [splitModel, List.filterMap_cons, hnone]

/-! ## Claim C8 -/

/-- Claim C8: absent or malformed ordering data never aborts
`getLayerConfig`. For any ordering text and any point `cut` at which an
exception interrupts the `try` block, the operation still returns one
descriptor per flat layer with the name / visibility / locked data intact
(a permutation, since the list is re-sorted); the assignments made before
the failure are the ones retained, and every group not yet visited keeps
its defaults (depth 0, no parent, display order 0); with no ordering data
at all, every group keeps those defaults. -/
theorem getLayerConfig_partial_failure :
    (∀ (layers : List LayerUI) (xmap : List (Nat × Nat)) (s : List Char) (cut : Nat),
      List.Perm ((getLayerConfigCut layers xmap s cut).map projFlat)
        (layers.map projLayer)) ∧
    (∀ (layers : List LayerUI) (xmap : List (Nat × Nat)) (s : List Char) (cut : Nat)
      (g : OCGInfo), g ∈ getLayerConfigCut layers xmap s cut →
      g.number ∉ ((orderEvents xmap s).take cut).map OrderEvent.num →
      g.depth = 0 ∧ g.parentXref = 0 ∧ g.displayOrder = 0) ∧
    (∀ (layers : List LayerUI) (xmap : List (Nat × Nat)) (g : OCGInfo),
      g ∈ getLayerConfigModel layers xmap none →
      g.depth = 0 ∧ g.parentXref = 0 ∧ g.displayOrder = 0) := by
  refine ⟨?_, ?_, ?_⟩
  · intro layers xmap s cut
    exact layerOutput_perm_proj layers xmap _
  · intro layers xmap s cut g hg hn
    exact layerOutput_defaults hg hn
  · intro layers xmap g hg
    exact layerOutput_defaults hg (by simp)

/-- Claim C8 (witness): a parse that dies after one assignment (of two)
still reports the unvisited layer `Y` with its defaults. -/
theorem getLayerConfig_partial_failure_w :
    (⟨4, "Y", true, false, 0, 11, 0, 0⟩ : OCGInfo) ∈
      getLayerConfigCut [⟨3, "X", false, true⟩, ⟨4, "Y", true, false⟩] [(9, 3), (11, 4)]
        "[9 0 R [11 0 R]]".data 1 ∧
    (⟨4, "Y", true, false, 0, 11, 0, 0⟩ : OCGInfo).number ∉
      ((orderEvents [(9, 3), (11, 4)] "[9 0 R [11 0 R]]".data).take 1).map OrderEvent.num ∧
    ((⟨4, "Y", true, false, 0, 11, 0, 0⟩ : OCGInfo).depth = 0 ∧
      (⟨4, "Y", true, false, 0, 11, 0, 0⟩ : OCGInfo).parentXref = 0 ∧
      (⟨4, "Y", true, false, 0, 11, 0, 0⟩ : OCGInfo).displayOrder = 0) :=
  ⟨by decide, by decide,
    getLayerConfig_partial_failure.2.1
      [⟨3, "X", false, true⟩, ⟨4, "Y", true, false⟩] [(9, 3), (11, 4)]
      "[9 0 R [11 0 R]]".data 1 ⟨4, "Y", true, false, 0, 11, 0, 0⟩
      (by decide) (by decide)⟩

/-- Claim C10 (witness). -/
theorem split_clamps_w :
    clampRange 3 (5, 9) = none ∧
    splitModel 3 [(5, 9), (0, 1)] = splitModel 3 [(0, 1)] :=
  ⟨by decide, split_clamps.2.2.1 3 (5, 9) [(0, 1)] (by decide)⟩

end PdfWasm
